import Mathlib

/-!
Shallow embedding of the issue-dashboard core in `src/app.py`
(`load_issue_data`, its helpers `clean_issue_name` / `clean_action_name`,
and the `/api/filter` handler `filter_data`).

Modelling conventions:
* A table row is a record of nullable text fields (`Option String`).  The
  source applies `df.where(pd.notnull(df), None)` (app.py line 35), so a
  missing cell is the explicit null `none` here, matching the normalized
  dataframe.  All columns used by the code are assumed present (the code
  itself requires `Issue`, `action_1`, `User`, `Type`, `User Segment`,
  `Phase`, `Finding` to exist, since it indexes them directly).
* Filter selections arrive from JSON and are dynamically typed in Python;
  they are modelled as lists of `PyVal` (text or integer scalar values),
  and an absent argument (`None` default, app.py line 30) as `Option.none`.
  A selection element that is itself Python `None` (which `isin` would
  match against null cells) is outside the model, as is a non-sequence
  selection (a truthy one raises `TypeError` at `len(...)` in the source
  before `isin` is reached; a falsy one is treated as no filter).
* pandas `groupby(keys)` with the default `sort=True` lists groups in
  ascending lexicographic order of the key tuple and drops rows whose key
  contains a null (default `dropna=True`); `Series.nunique` counts distinct
  non-null values.
* `DataFrame.sort_values(col, ascending=False)` computes an ascending
  argsort of the column and then reverses it (`pandas.core.sorting.nargsort`).
  numpy's default quicksort argsort runs a stable insertion sort below its
  small-array cutoff (about 16 elements) and is unstable above it, so the
  program guarantees no tie order for large buckets.  The embedding
  realises the argsort as a stable insertion sort — exact below the
  cutoff — and universally asserts only order properties that hold for
  every correct argsort, stable or not (sortedness by count); tie order
  is evaluated only on small concrete buckets, where the model is exact.
* Python dicts preserve insertion order; they are modelled as association
  lists in insertion order.
-/

set_option autoImplicit false

namespace App

/-- One row of the raw table after null-normalization (app.py line 35):
every used column, each nullable. -/
structure Row where
  user : Option String
  ctype : Option String
  segment : Option String
  issue : Option String
  finding : Option String
  phase : Option String
  action_1 : Option String
  action_1_explanation : Option String
  action_1_conf : Option String
  issue_Explanation : Option String
  confidence_Score : Option String
  reference : Option String
deriving DecidableEq, Repr

/-- A dynamically-typed JSON scalar appearing in a filter selection list. -/
inductive PyVal where
  | str (s : String)
  | int (n : Int)
deriving DecidableEq, Repr

/-- `if selected_users and len(selected_users) > 0` (app.py lines 38/42/46):
the facet filter runs only when the argument is present and non-empty. -/
def selActive : Option (List PyVal) → Bool
  | none => false
  | some l => !l.isEmpty

/-- `df[col].isin(selected)` at one cell: a null cell matches nothing, a
text cell matches exactly the equal text element of the selection. -/
def isinVal (v : Option String) (sel : List PyVal) : Bool :=
  match v with
  | none => false
  | some s => sel.contains (PyVal.str s)

/-- One facet filter step (app.py lines 38-39, 42-43, 46-47). -/
def applyFacet (get : Row → Option String) (sel : Option (List PyVal))
    (rows : List Row) : List Row :=
  if selActive sel then rows.filter (fun r => isinVal (get r) (sel.getD [])) else rows

/-- The three facet filters applied in source order:
users, then campaign types, then segments (app.py lines 38-47). -/
def filteredRows (tbl : List Row) (users cts segs : Option (List PyVal)) : List Row :=
  applyFacet (·.segment) segs (applyFacet (·.ctype) cts (applyFacet (·.user) users tbl))

/-- The characters after the first `' '` of a list, everything dropped when
there is no space; implements the `parts[1]` branch of
`str(issue).split(' ', 1)` (app.py line 53). -/
def afterFirstSpace : List Char → List Char
  | [] => []
  | c :: cs => if c = ' ' then cs else afterFirstSpace cs

/-- `clean_issue_name` (app.py lines 50-54): null stays null; otherwise
split on the first space and keep everything after it when a space exists,
else the whole string. -/
def clean_issue_name : Option String → Option String
  | none => none
  | some s =>
    if s.toList.contains ' ' then some (String.mk (afterFirstSpace s.toList)) else some s

/-- Python `str.strip()`: drop leading and trailing whitespace. -/
def pyStrip (s : String) : String :=
  String.mk (((s.toList.dropWhile Char.isWhitespace).reverse.dropWhile
    Char.isWhitespace).reverse)

/-- `clean_action_name` (app.py lines 59-62): null or whitespace-only
becomes the sentinel `"No Action"`, otherwise the stripped string. -/
def clean_action_name : Option String → String
  | none => "No Action"
  | some s => if pyStrip s = "" then "No Action" else pyStrip s

/-- A filtered row together with the two derived columns added at
app.py lines 56 and 64. -/
structure NRow extends Row where
  issue_Clean : Option String
  action_Clean : String
deriving DecidableEq, Repr

/-- Adding the `Issue_Clean` and `Action_Clean` columns (app.py lines 56, 64). -/
def normalizeRow (r : Row) : NRow :=
  { r with
    issue_Clean := clean_issue_name r.issue
    action_Clean := clean_action_name r.action_1 }

/-- The filtered, normalized record sequence that both the pivot and the
detail map are built from. -/
def normRows (tbl : List Row) (users cts segs : Option (List PyVal)) : List NRow :=
  (filteredRows tbl users cts segs).map normalizeRow

/-- The canonical phase list (app.py lines 67-72). -/
def phase_order : List String :=
  ["Cross-cutting", "Phase 1: Before Payment", "Phase 2: During Payment",
   "Phase 3: After Payment"]

/-- Stable insertion of an element into a list: it lands before the first
element it compares `le` to, hence before later equal elements. -/
def insertLe {α : Type} (le : α → α → Bool) (a : α) : List α → List α
  | [] => [a]
  | b :: l => if le a b then a :: b :: l else b :: insertLe le a l

/-- Stable insertion sort; models Python `sorted` and numpy's stable
ascending argsort regime (see the header note). -/
def isort {α : Type} (le : α → α → Bool) : List α → List α
  | [] => []
  | a :: l => insertLe le a (isort le l)

/-- Strict lexicographic order on code-point sequences: Python's `<` on
strings (and the order pandas uses for sorting text). -/
def ltLN : List Nat → List Nat → Bool
  | [], [] => false
  | [], _ :: _ => true
  | _ :: _, [] => false
  | a :: as, b :: bs => decide (a < b) || (decide (a = b) && ltLN as bs)

/-- Python `a < b` on strings: lexicographic by code point. -/
def strLt (a b : String) : Bool := ltLN (a.toList.map Char.toNat) (b.toList.map Char.toNat)

/-- Python `a <= b` on strings. -/
def strLe (a b : String) : Bool := !(strLt b a)

/-- `sorted(df['User'].dropna().unique().tolist())` then the guarded
`remove('User')` (app.py lines 75-76). -/
def all_users (rows : List NRow) : List String :=
  (isort strLe (rows.filterMap (·.user)).dedup).erase "User"

/-- `sorted(df['Type'].dropna().unique().tolist())` then the guarded
`remove('Type')` (app.py lines 79-80). -/
def all_campaign_types (rows : List NRow) : List String :=
  (isort strLe (rows.filterMap (·.ctype)).dedup).erase "Type"

/-- `sorted(df['User Segment'].dropna().unique().tolist())` then the
guarded `remove('User Segment')` (app.py lines 83-84). -/
def all_segments (rows : List NRow) : List String :=
  (isort strLe (rows.filterMap (·.segment)).dedup).erase "User Segment"

/-- `sorted(df['Action_Clean'].unique())` (app.py line 87); `Action_Clean`
is never null, so there is no dropna. -/
def all_actions (rows : List NRow) : List String :=
  isort strLe (rows.map (·.action_Clean)).dedup

/-- The pandas group key `(Issue, Issue_Clean)`; `none` when the row is
dropped by groupby's `dropna` (a null in the key tuple). -/
def rowKey (r : NRow) : Option (String × String) :=
  match r.issue, r.issue_Clean with
  | some i, some c => some (i, c)
  | _, _ => none

/-- Ascending lexicographic order on `(Issue, Issue_Clean)` tuples, the
order in which `groupby(['Issue', 'Issue_Clean'])` lists its groups. -/
def lexLe (k₁ k₂ : String × String) : Bool :=
  strLt k₁.1 k₂.1 || (k₁.1 == k₂.1 && strLe k₁.2 k₂.2)

/-- The distinct group keys of a row list, in groupby's ascending order. -/
def groupKeys (rows : List NRow) : List (String × String) :=
  isort lexLe (rows.filterMap rowKey).dedup

/-- `Series.nunique` over the `Finding` column of a row list: the number
of distinct non-null values. -/
def nuniqueFindings (rows : List NRow) : Nat :=
  ((rows.filterMap (·.finding)).dedup).length

/-- One record of `issue_counts.to_dict('records')` (app.py lines 100-106). -/
structure PivotEntry where
  issue : String
  issue_Clean : String
  finding_Count : Nat
deriving DecidableEq, Repr

/-- Ascending comparison on `Finding_Count`, the argsort key of
`sort_values('Finding_Count', ascending=False)`. -/
def countLe (a b : PivotEntry) : Bool := decide (a.finding_Count ≤ b.finding_Count)

/-- The groupby / nunique / sort pipeline of app.py lines 100-106 on the
rows of one (action, phase) bucket: group rows by `(Issue, Issue_Clean)`
in ascending key order, count distinct findings per group, then sort by
count descending — pandas realises the descending sort as a reversed
ascending argsort.  The argsort here is a stable insertion sort, which is
numpy's exact behaviour below its small-array cutoff; above the cutoff
the default quicksort guarantees only the ordering by count, so the
development asserts universally only count-sortedness (invariant under
the choice of argsort) and evaluates tie order only on small concrete
buckets. -/
def issueCounts (phaseRows : List NRow) : List PivotEntry :=
  (isort countLe ((groupKeys phaseRows).map (fun k =>
    { issue := k.1, issue_Clean := k.2,
      finding_Count :=
        nuniqueFindings (phaseRows.filter (fun r => rowKey r == some k)) }))).reverse

/-- The entry list of one pivot cell (app.py lines 94-108): restrict to
the action, restrict to the phase, and run the counting pipeline; an empty
selection yields the empty list. -/
def phaseBucket (rows : List NRow) (action phase : String) : List PivotEntry :=
  let phaseRows := (rows.filter (fun r => r.action_Clean == action)).filter
    (fun r => r.phase == some phase)
  if phaseRows.isEmpty then [] else issueCounts phaseRows

/-- `pivot_data` (app.py lines 90-108): for each cleaned action in sorted
order, a dict from each canonical phase (always all four, in order) to its
entry list. -/
def pivot_data (rows : List NRow) : List (String × List (String × List PivotEntry)) :=
  (all_actions rows).map (fun a => (a, phase_order.map (fun p => (p, phaseBucket rows a p))))

/-- How a nullable cell appears inside the f-string key of app.py line 115:
`Series.get` returns the stored value whenever the label exists (its
default applies only to a missing label), and Python renders the null as
the text `None`. -/
def pyShow : Option String → String
  | none => "None"
  | some s => s

/-- The detail-map key `f"{action}|||{issue}"` (app.py lines 113-115). -/
def detailKey (r : NRow) : String := pyShow r.action_1 ++ "|||" ++ pyShow r.issue

/-- One detail object (app.py lines 118-129). -/
structure Detail where
  finding : Option String
  phase : Option String
  user : Option String
  issue_explanation : Option String
  action_explanation : Option String
  action_confidence : Option String
  issue_confidence : Option String
  campaign_type : Option String
  user_segment : Option String
  reference : Option String
deriving DecidableEq, Repr

/-- The detail object built from one row (app.py lines 118-129). -/
def detailObj (r : NRow) : Detail :=
  { finding := r.finding
    phase := r.phase
    user := r.user
    issue_explanation := r.issue_Explanation
    action_explanation := r.action_1_explanation
    action_confidence := r.action_1_conf
    issue_confidence := r.confidence_Score
    campaign_type := r.ctype
    user_segment := r.segment
    reference := r.reference }

/-- Insert one detail object under a key of the insertion-ordered dict
(app.py lines 116-129): append to the existing entry list, or create the
key at the end. -/
def addDetail (key : String) (obj : Detail) :
    List (String × List Detail) → List (String × List Detail)
  | [] => [(key, [obj])]
  | (k, es) :: rest =>
    if k = key then (k, es ++ [obj]) :: rest else (k, es) :: addDetail key obj rest

/-- `detail_map` (app.py lines 111-129): fold over the filtered rows in
original order. -/
def detail_map (rows : List NRow) : List (String × List Detail) :=
  rows.foldl (fun m r => addDetail (detailKey r) (detailObj r) m) []

/-- The entry list stored under a key, `[]` when the key is absent. -/
def entriesAt (m : List (String × List Detail)) (k : String) : List Detail :=
  (m.lookup k).getD []

/-- Total number of detail entries summed over all keys of the map. -/
def totalEntries (m : List (String × List Detail)) : Nat :=
  (m.map (fun kv => kv.2.length)).sum

/-- The tuple returned by `load_issue_data` (app.py lines 131-139). -/
structure Output where
  pivot_data : List (String × List (String × List PivotEntry))
  phase_order : List String
  all_actions : List String
  all_users : List String
  all_campaign_types : List String
  all_segments : List String
  detail_map : List (String × List Detail)
deriving DecidableEq, Repr

/-- `load_issue_data` (app.py lines 30-139) on an in-memory table. -/
def load_issue_data (tbl : List Row) (users cts segs : Option (List PyVal)) : Output :=
  let rows := normRows tbl users cts segs
  { pivot_data := pivot_data rows
    phase_order := phase_order
    all_actions := all_actions rows
    all_users := all_users rows
    all_campaign_types := all_campaign_types rows
    all_segments := all_segments rows
    detail_map := detail_map rows }

/-- The decoded JSON body of a `/api/filter` request: three optional
fields, each a sequence of scalar values. -/
structure FilterPayload where
  users : Option (List PyVal)
  campaign_types : Option (List PyVal)
  segments : Option (List PyVal)
deriving DecidableEq, Repr

/-- `filter_data` (app.py lines 161-186): read each field with default
`[]`, call `load_issue_data`, return the response.  The `Except` channel
is the request's exception path; the source performs no validation of the
selection lists and never raises on them, so every list-shaped selection
reaches a normal `.ok` response. -/
def filter_data (tbl : List Row) (payload : FilterPayload) : Except String Output :=
  .ok (load_issue_data tbl (some (payload.users.getD []))
    (some (payload.campaign_types.getD [])) (some (payload.segments.getD [])))

/-- A row holding only the fields the pipeline inspects; the remaining
columns are null. -/
def mkRow (u ty seg iss fnd ph act : Option String) : Row :=
  { user := u, ctype := ty, segment := seg, issue := iss, finding := fnd,
    phase := ph, action_1 := act, action_1_explanation := none,
    action_1_conf := none, issue_Explanation := none,
    confidence_Score := none, reference := none }

/-- The three-row example table of spec §8: one issue, three rows, two
distinct findings. -/
def specTbl : List Row :=
  [ mkRow (some "u1") none none (some "I1 Label") (some "F1")
      (some "Phase 1: Before Payment") (some "Fix"),
    mkRow (some "u2") none none (some "I1 Label") (some "F1")
      (some "Phase 1: Before Payment") (some "Fix"),
    mkRow (some "u1") none none (some "I1 Label") (some "F2")
      (some "Phase 1: Before Payment") (some "Fix") ]

/-- Two rows of one action and phase with two distinct single-finding
issues, the lexicographically smaller issue appearing first. -/
def tieTbl : List Row :=
  [ mkRow (some "u1") none none (some "I1 A") (some "F1")
      (some "Phase 1: Before Payment") (some "Fix"),
    mkRow (some "u1") none none (some "I2 B") (some "F2")
      (some "Phase 1: Before Payment") (some "Fix") ]

/-- A row whose `action_1` is null. -/
def nullActionRow : Row :=
  mkRow (some "u1") none none (some "I1 Label") (some "F1")
    (some "Phase 1: Before Payment") none

/-- A row whose `Phase` value matches no canonical phase. -/
def oddPhaseRow : Row :=
  mkRow (some "u1") none none (some "I1 Label") (some "F1")
    (some "Phase 9") (some "Fix")

/-- `true` exactly on text selection elements. -/
def PyVal.isStr : PyVal → Bool
  | .str _ => true
  | .int _ => false

/-- The normalized record list of the spec example, no filters applied. -/
def specRows : List NRow := normRows specTbl none none none

/-- The phase dict of the example's single action `"Fix"`. -/
def specPhases : List (String × List PivotEntry) :=
  phase_order.map (fun p => (p, phaseBucket specRows "Fix" p))

/-- The example's `"Phase 1: Before Payment"` bucket. -/
def specBucket : List PivotEntry := phaseBucket specRows "Fix" "Phase 1: Before Payment"

/-- The single pivot entry of the example bucket: two distinct findings
over three rows. -/
def specEntry : PivotEntry :=
  { issue := "I1 Label", issue_Clean := "Label", finding_Count := 2 }

/-! ## Permutation and stability of the insertion sort -/

theorem insertLe_perm {α : Type} (le : α → α → Bool) (a : α) (l : List α) :
    (insertLe le a l).Perm (a :: l) := by
  induction l with
  | nil => exact List.Perm.refl _
  | cons b l ih =>
    simp only [insertLe]
    split
    · exact List.Perm.refl _
    · exact (ih.cons b).trans (List.Perm.swap a b l)

theorem isort_perm {α : Type} (le : α → α → Bool) (l : List α) :
    (isort le l).Perm l := by
  induction l with
  | nil => exact List.Perm.refl _
  | cons a l ih => exact (insertLe_perm le a (isort le l)).trans (ih.cons a)

theorem mem_isort {α : Type} {le : α → α → Bool} {l : List α} {x : α} :
    x ∈ isort le l ↔ x ∈ l :=
  (isort_perm le l).mem_iff

/-- Sortedness with a stability clause: inserting `a` below elements it is
`le`-related to keeps every pre-established relation `R a b`. -/
theorem pairwise_insertLe {α : Type} (le : α → α → Bool) (R : α → α → Prop)
    (htot : ∀ a b, le a b = true ∨ le b a = true)
    (htrans : ∀ a b c, le a b = true → le b c = true → le a c = true)
    (a : α) (m : List α)
    (hm : m.Pairwise (fun x y => le x y = true ∧ (le y x = true → R x y)))
    (ha : ∀ b ∈ m, R a b) :
    (insertLe le a m).Pairwise (fun x y => le x y = true ∧ (le y x = true → R x y)) := by
  induction m with
  | nil => simp [insertLe]
  | cons b m ih =>
    rcases List.pairwise_cons.mp hm with ⟨hb, hm'⟩
    by_cases hab : le a b = true
    · simp only [insertLe, hab, if_true]
      refine List.pairwise_cons.mpr ⟨?_, hm⟩
      intro c hc
      rcases List.mem_cons.mp hc with rfl | hcm
      · exact ⟨hab, fun _ => ha _ (List.mem_cons_self _ _)⟩
      · exact ⟨htrans a b c hab (hb c hcm).1, fun _ => ha c (List.mem_cons.mpr (Or.inr hcm))⟩
    · simp only [insertLe, hab, if_false]
      refine List.pairwise_cons.mpr ⟨?_, ih hm' (fun c hc => ha c (List.mem_cons.mpr (Or.inr hc)))⟩
      intro c hc
      rcases List.mem_cons.mp ((insertLe_perm le a m).mem_iff.mp hc) with rfl | hcm
      · refine ⟨?_, fun hca => absurd hca hab⟩
        rcases htot c b with h | h
        · exact absurd h hab
        · exact h
      · exact hb c hcm

/-- Stable insertion sort: the result is `le`-sorted, and any pairwise
relation `R` holding on the input is kept between `le`-ties. -/
theorem pairwise_isort {α : Type} (le : α → α → Bool) (R : α → α → Prop)
    (htot : ∀ a b, le a b = true ∨ le b a = true)
    (htrans : ∀ a b c, le a b = true → le b c = true → le a c = true)
    (l : List α) (hl : l.Pairwise R) :
    (isort le l).Pairwise (fun x y => le x y = true ∧ (le y x = true → R x y)) := by
  induction l with
  | nil => simp [isort]
  | cons a l ih =>
    rcases List.pairwise_cons.mp hl with ⟨ha, hl'⟩
    exact pairwise_insertLe le R htot htrans a _ (ih hl')
      (fun b hb => ha b ((isort_perm le l).subset hb))

/-! ## The code-point orders -/

theorem ltLN_irrefl : ∀ l : List Nat, ltLN l l = false
  | [] => rfl
  | a :: l => by simp [ltLN, ltLN_irrefl l]

theorem ltLN_asymm : ∀ l₁ l₂ : List Nat, ltLN l₁ l₂ = true → ltLN l₂ l₁ = false
  | [], [], h => by simp [ltLN] at h
  | [], _ :: _, _ => rfl
  | _ :: _, [], h => by simp [ltLN] at h
  | a :: as, b :: bs, h => by
    simp only [ltLN, Bool.or_eq_true, Bool.and_eq_true, decide_eq_true_eq] at h ⊢
    simp only [Bool.or_eq_false_iff, Bool.and_eq_false_iff, decide_eq_false_iff_not]
    rcases h with h | ⟨rfl, h⟩
    · exact ⟨by omega, Or.inl (by omega)⟩
    · exact ⟨by omega, Or.inr (by simpa using ltLN_asymm as bs h)⟩

theorem ltLN_trans : ∀ l₁ l₂ l₃ : List Nat,
    ltLN l₁ l₂ = true → ltLN l₂ l₃ = true → ltLN l₁ l₃ = true
  | [], _, _ :: _, _, _ => rfl
  | [], _ :: _, [], _, h₂ => by simp [ltLN] at h₂
  | [], [], [], h₁, _ => by simp [ltLN] at h₁
  | _ :: _, [], _, h₁, _ => by simp [ltLN] at h₁
  | _ :: _, _ :: _, [], _, h₂ => by simp [ltLN] at h₂
  | a :: as, b :: bs, c :: cs, h₁, h₂ => by
    simp only [ltLN, Bool.or_eq_true, Bool.and_eq_true, decide_eq_true_eq] at h₁ h₂ ⊢
    rcases h₁ with h₁ | ⟨rfl, h₁⟩
    · rcases h₂ with h₂ | ⟨rfl, h₂⟩
      · exact Or.inl (by omega)
      · exact Or.inl h₁
    · rcases h₂ with h₂ | ⟨rfl, h₂⟩
      · exact Or.inl h₂
      · exact Or.inr ⟨rfl, ltLN_trans as bs cs h₁ h₂⟩

theorem ltLN_conn : ∀ l₁ l₂ : List Nat, l₁ ≠ l₂ → ltLN l₁ l₂ = true ∨ ltLN l₂ l₁ = true
  | [], [], h => absurd rfl h
  | [], _ :: _, _ => Or.inl rfl
  | _ :: _, [], _ => Or.inr rfl
  | a :: as, b :: bs, h => by
    simp only [ltLN, Bool.or_eq_true, Bool.and_eq_true, decide_eq_true_eq]
    by_cases hab : a = b
    · subst hab
      have : as ≠ bs := fun hh => h (by rw [hh])
      rcases ltLN_conn as bs this with h' | h'
      · exact Or.inl (Or.inr ⟨rfl, h'⟩)
      · exact Or.inr (Or.inr ⟨rfl, h'⟩)
    · rcases Nat.lt_or_ge a b with h' | h'
      · exact Or.inl (Or.inl h')
      · exact Or.inr (Or.inl (by omega))

/-- The code-point image of a string determines it. -/
theorem strKey_inj {a b : String} (h : a.toList.map Char.toNat = b.toList.map Char.toNat) :
    a = b := by
  have hinj : Function.Injective Char.toNat := fun x y hxy =>
    Char.eq_of_val_eq (UInt32.eq_of_toBitVec_eq (BitVec.eq_of_toNat_eq hxy))
  have : a.toList = b.toList := List.map_injective_iff.mpr hinj h
  have hdata : a.data = b.data := this
  cases a; cases b; exact congrArg String.mk hdata

theorem strLt_irrefl (a : String) : strLt a a = false := ltLN_irrefl _

theorem strLt_asymm {a b : String} (h : strLt a b = true) : strLt b a = false :=
  ltLN_asymm _ _ h

theorem strLt_trans {a b c : String} (h₁ : strLt a b = true) (h₂ : strLt b c = true) :
    strLt a c = true := ltLN_trans _ _ _ h₁ h₂

theorem strLt_conn {a b : String} (h : a ≠ b) : strLt a b = true ∨ strLt b a = true :=
  ltLN_conn _ _ (fun hk => h (strKey_inj hk))

theorem strLe_refl (a : String) : strLe a a = true := by
  simp [strLe, strLt_irrefl]

theorem strLe_total (a b : String) : strLe a b = true ∨ strLe b a = true := by
  by_cases h : strLt b a = true
  · exact Or.inr (by simp [strLe, strLt_asymm h])
  · exact Or.inl (by simp [strLe, Bool.not_eq_true] at h ⊢; exact h)

theorem strLe_trans {a b c : String} (h₁ : strLe a b = true) (h₂ : strLe b c = true) :
    strLe a c = true := by
  simp only [strLe, Bool.not_eq_true'] at h₁ h₂ ⊢
  by_contra hca
  have hca' : strLt c a = true := by
    cases hh : strLt c a
    · exact absurd hh hca
    · rfl
  by_cases hcb : c = b
  · subst hcb
    rw [hca'] at h₁
    exact Bool.false_ne_true h₁.symm
  · rcases strLt_conn hcb with h' | h'
    · rw [h'] at h₂
      exact Bool.false_ne_true h₂.symm
    · have := strLt_trans h' hca'
      rw [this] at h₁
      exact Bool.false_ne_true h₁.symm

theorem strLe_antisymm {a b : String} (h₁ : strLe a b = true) (h₂ : strLe b a = true) :
    a = b := by
  simp only [strLe, Bool.not_eq_true'] at h₁ h₂
  by_contra h
  rcases strLt_conn h with h' | h'
  · rw [h'] at h₂; exact Bool.false_ne_true h₂.symm
  · rw [h'] at h₁; exact Bool.false_ne_true h₁.symm

theorem strLt_of_strLe_of_ne {a b : String} (h₁ : strLe a b = true) (h₂ : a ≠ b) :
    strLt a b = true := by
  simp only [strLe, Bool.not_eq_true'] at h₁
  rcases strLt_conn h₂ with h' | h'
  · exact h'
  · rw [h'] at h₁; exact absurd h₁.symm Bool.false_ne_true

theorem lexLe_refl (k : String × String) : lexLe k k = true := by
  simp [lexLe, strLe_refl]

theorem lexLe_total (k₁ k₂ : String × String) : lexLe k₁ k₂ = true ∨ lexLe k₂ k₁ = true := by
  by_cases h : k₁.1 = k₂.1
  · rcases strLe_total k₁.2 k₂.2 with h' | h'
    · exact Or.inl (by simp [lexLe, h, h'])
    · exact Or.inr (by simp [lexLe, h.symm, h'])
  · rcases strLt_conn h with h' | h'
    · exact Or.inl (by simp [lexLe, h'])
    · exact Or.inr (by simp [lexLe, h'])

theorem lexLe_trans {k₁ k₂ k₃ : String × String}
    (h₁ : lexLe k₁ k₂ = true) (h₂ : lexLe k₂ k₃ = true) : lexLe k₁ k₃ = true := by
  simp only [lexLe, Bool.or_eq_true, Bool.and_eq_true, beq_iff_eq] at h₁ h₂ ⊢
  rcases h₁ with h₁ | ⟨he₁, h₁⟩
  · rcases h₂ with h₂ | ⟨he₂, h₂⟩
    · exact Or.inl (strLt_trans h₁ h₂)
    · exact Or.inl (he₂ ▸ h₁)
  · rcases h₂ with h₂ | ⟨he₂, h₂⟩
    · exact Or.inl (he₁ ▸ h₂)
    · exact Or.inr ⟨he₁.trans he₂, strLe_trans h₁ h₂⟩

theorem lexLe_antisymm {k₁ k₂ : String × String}
    (h₁ : lexLe k₁ k₂ = true) (h₂ : lexLe k₂ k₁ = true) : k₁ = k₂ := by
  simp only [lexLe, Bool.or_eq_true, Bool.and_eq_true, beq_iff_eq] at h₁ h₂
  rcases h₁ with h₁ | ⟨he₁, h₁⟩
  · rcases h₂ with h₂ | ⟨he₂, h₂⟩
    · rw [strLt_asymm h₁] at h₂
      exact absurd h₂ Bool.false_ne_true
    · rw [he₂, strLt_irrefl] at h₁
      exact absurd h₁ Bool.false_ne_true
  · rcases h₂ with h₂ | ⟨he₂, h₂⟩
    · rw [he₁, strLt_irrefl] at h₂
      exact absurd h₂ Bool.false_ne_true
    · exact Prod.ext he₁ (strLe_antisymm h₁ h₂)

theorem countLe_total (a b : PivotEntry) : countLe a b = true ∨ countLe b a = true := by
  simp only [countLe, decide_eq_true_eq]
  omega

theorem countLe_trans {a b c : PivotEntry}
    (h₁ : countLe a b = true) (h₂ : countLe b c = true) : countLe a c = true := by
  simp only [countLe, decide_eq_true_eq] at h₁ h₂ ⊢
  omega

/-! ## Detail-map lemmas -/

theorem lookup_addDetail (key k : String) (obj : Detail)
    (m : List (String × List Detail)) :
    (addDetail key obj m).lookup k =
      if k = key then some (((m.lookup k).getD []) ++ [obj]) else m.lookup k := by
  induction m with
  | nil =>
    by_cases h : k = key
    · simp [addDetail, List.lookup, h]
    · simp [addDetail, List.lookup, beq_eq_false_iff_ne.mpr h, h]
  | cons p m ih =>
    obtain ⟨k', es⟩ := p
    by_cases hk' : k' = key
    · subst hk'
      by_cases h : k = k'
      · subst h
        simp [addDetail, List.lookup]
      · simp [addDetail, List.lookup, beq_eq_false_iff_ne.mpr h, h]
    · simp only [addDetail, if_neg hk']
      by_cases h : k = k'
      · have hbeq : (k == k') = true := beq_iff_eq.mpr h
        have hkey : ¬ k = key := fun hh => hk' (h.symm.trans hh)
        simp [List.lookup, hbeq, hkey]
      · have hbeq : (k == k') = false := beq_eq_false_iff_ne.mpr h
        simp only [List.lookup, hbeq]
        exact ih

theorem lookup_detail_map_aux (rows : List NRow) :
    ∀ (m : List (String × List Detail)) (k : String),
    (((rows.foldl (fun acc r => addDetail (detailKey r) (detailObj r) acc) m).lookup k).getD [])
      = ((m.lookup k).getD []) ++ (rows.filter (fun r => detailKey r == k)).map detailObj := by
  induction rows with
  | nil => simp
  | cons r rows ih =>
    intro m k
    simp only [List.foldl_cons, List.filter_cons]
    rw [ih]
    by_cases h : detailKey r = k
    · subst h
      rw [lookup_addDetail]
      simp
    · rw [lookup_addDetail, if_neg (fun hh : k = detailKey r => h hh.symm)]
      simp [beq_eq_false_iff_ne.mpr h]

/-- The entry list at a key is exactly the detail objects of the rows with
that key, in row order. -/
theorem entriesAt_detail_map (rows : List NRow) (k : String) :
    entriesAt (detail_map rows) k =
      (rows.filter (fun r => detailKey r == k)).map detailObj := by
  have := lookup_detail_map_aux rows [] k
  simpa [entriesAt, detail_map] using this

theorem totalEntries_addDetail (key : String) (obj : Detail)
    (m : List (String × List Detail)) :
    totalEntries (addDetail key obj m) = totalEntries m + 1 := by
  induction m with
  | nil => simp [addDetail, totalEntries]
  | cons p m ih =>
    obtain ⟨k', es⟩ := p
    by_cases h : k' = key
    · simp [addDetail, h, totalEntries]
      omega
    · simp only [addDetail, if_neg h, totalEntries, List.map_cons, List.sum_cons] at ih ⊢
      omega

theorem totalEntries_detail_map_aux (rows : List NRow) :
    ∀ m : List (String × List Detail),
    totalEntries (rows.foldl (fun acc r => addDetail (detailKey r) (detailObj r) acc) m)
      = totalEntries m + rows.length := by
  induction rows with
  | nil => simp
  | cons r rows ih =>
    intro m
    simp only [List.foldl_cons, List.length_cons, ih, totalEntries_addDetail]
    omega

/-- The fold contributes exactly one detail entry per row. -/
theorem totalEntries_detail_map (rows : List NRow) :
    totalEntries (detail_map rows) = rows.length := by
  simpa [detail_map, totalEntries] using totalEntries_detail_map_aux rows []

/-! ## Misc list lemmas -/

theorem filter_erase_of_not {α : Type} [DecidableEq α] (p : α → Bool) {r : α} {l : List α}
    (hr : r ∈ l) (hp : p r = false) : (l.erase r).filter p = l.filter p := by
  induction l with
  | nil => cases hr
  | cons x l ih =>
    by_cases hx : x = r
    · subst hx
      rw [List.erase_cons_head, List.filter_cons, hp]
      simp
    · rw [List.erase_cons_tail (by simpa using fun hh : x = r => hx hh)]
      rcases List.mem_cons.mp hr with h | h
      · exact absurd h.symm hx
      · rw [List.filter_cons, List.filter_cons]
        cases hpx : p x
        · exact ih h
        · rw [ih h]

theorem nodup_isort {α : Type} [DecidableEq α] (le : α → α → Bool) (l : List α)
    (h : l.Nodup) : (isort le l).Nodup := ((isort_perm le l).nodup_iff).mpr h

theorem afterFirstSpace_eq : ∀ l : List Char,
    afterFirstSpace l = (l.dropWhile (fun c => !(c == ' '))).tail
  | [] => rfl
  | c :: cs => by
    by_cases h : c = ' '
    · simp [afterFirstSpace, h, List.dropWhile]
    · simp [afterFirstSpace, h, List.dropWhile, beq_eq_false_iff_ne.mpr h,
        afterFirstSpace_eq cs]

theorem string_mk_eq_empty_iff (l : List Char) : String.mk l = "" ↔ l = [] := by
  rw [String.ext_iff]

theorem pyStrip_eq_empty_iff (s : String) :
    pyStrip s = "" ↔ ∀ c ∈ s.toList, c.isWhitespace = true := by
  rw [pyStrip, string_mk_eq_empty_iff, List.reverse_eq_nil_iff,
    List.dropWhile_eq_nil_iff]
  constructor
  · intro h c hc
    have hsplit := List.takeWhile_append_dropWhile
      (p := Char.isWhitespace) (l := s.toList)
    rw [← hsplit] at hc
    rcases List.mem_append.mp hc with h' | h'
    · exact List.mem_takeWhile_imp h'
    · exact h c (List.mem_reverse.mpr h')
  · intro h c hc
    exact h c ((List.dropWhile_sublist Char.isWhitespace).subset (List.mem_reverse.mp hc))

/-! ## The claims -/

/-- C2: for every filter selection and every action key of the pivot
returned by `load_issue_data`, the phase keys under that action are
exactly the four canonical phases, in the fixed canonical order; a
canonical phase matched by no filtered row is still present, mapped to
the empty entry list rather than absent. -/
theorem c2_phase_keys_canonical (tbl : List Row) (users cts segs : Option (List PyVal))
    (a : String) (phases : List (String × List PivotEntry))
    (h : (a, phases) ∈ (load_issue_data tbl users cts segs).pivot_data) :
    phases.map Prod.fst = phase_order ∧
    ∀ p ∈ phase_order,
      (∀ r ∈ normRows tbl users cts segs, ¬(r.action_Clean = a ∧ r.phase = some p)) →
      (p, ([] : List PivotEntry)) ∈ phases := by
  simp only [load_issue_data, pivot_data, List.mem_map] at h
  obtain ⟨a', _, heq⟩ := h
  have ha : a' = a := congrArg Prod.fst heq
  subst ha
  have hph : phases = phase_order.map
      (fun p => (p, phaseBucket (normRows tbl users cts segs) a' p)) :=
    (congrArg Prod.snd heq).symm
  subst hph
  constructor
  · rw [List.map_map]
    have hcomp : (Prod.fst ∘ fun p =>
        (p, phaseBucket (normRows tbl users cts segs) a' p)) = id :=
      funext fun p => rfl
    rw [hcomp, List.map_id]
  · intro p hp hnone
    have hrows : ((normRows tbl users cts segs).filter
        (fun r => r.action_Clean == a')).filter (fun r => r.phase == some p) = [] := by
      apply List.filter_eq_nil_iff.mpr
      intro r hr
      rcases List.mem_filter.mp hr with ⟨hrmem, hract⟩
      intro hph'
      exact hnone r hrmem ⟨beq_iff_eq.mp hract, beq_iff_eq.mp hph'⟩
    have hbucket : phaseBucket (normRows tbl users cts segs) a' p = [] := by
      simp only [phaseBucket, hrows]
      rfl
    exact List.mem_map.mpr ⟨p, hp, by rw [hbucket]⟩

/-- C2 witness at the spec example. -/
theorem c2_phase_keys_canonical_witness : specPhases.map Prod.fst = phase_order :=
  (c2_phase_keys_canonical specTbl none none none "Fix" specPhases (by decide)).1

/-- C3: for every filter selection, each filtered record contributes
exactly one detail entry — the total entry count over all keys equals the
number of filtered records — and within each key the entries are the
detail objects of that key's rows in the original row order. -/
theorem c3_detail_row_bijection (tbl : List Row) (users cts segs : Option (List PyVal)) :
    totalEntries (load_issue_data tbl users cts segs).detail_map
        = (filteredRows tbl users cts segs).length ∧
    ∀ k : String,
      entriesAt (load_issue_data tbl users cts segs).detail_map k
        = ((normRows tbl users cts segs).filter (fun r => detailKey r == k)).map detailObj := by
  constructor
  · have h := totalEntries_detail_map (normRows tbl users cts segs)
    simpa [load_issue_data, normRows] using h
  · intro k
    simp only [load_issue_data]
    exact entriesAt_detail_map _ k

/-- C3 witness: at the spec example, three rows give three detail entries,
all under the key of the example row. -/
theorem c3_detail_row_bijection_witness :
    totalEntries (load_issue_data specTbl none none none).detail_map = 3 ∧
    entriesAt (load_issue_data specTbl none none none).detail_map "Fix|||I1 Label"
      = (specRows.filter (fun r => detailKey r == "Fix|||I1 Label")).map detailObj :=
  ⟨(c3_detail_row_bijection specTbl none none none).1.trans (by decide),
   (c3_detail_row_bijection specTbl none none none).2 "Fix|||I1 Label"⟩

/-- C4: facet filtering is conjunctive — a record is retained iff, for
every facet whose selection is present and non-empty, the record's field
value is a member of that selection — and supplying an empty selection for
a facet yields output identical to supplying no selection at all. -/
theorem c4_conjunctive_filtering (tbl : List Row) (users cts segs : Option (List PyVal))
    (r : Row) :
    (r ∈ filteredRows tbl users cts segs ↔
      r ∈ tbl ∧ (selActive users = true → isinVal r.user (users.getD []) = true) ∧
        (selActive cts = true → isinVal r.ctype (cts.getD []) = true) ∧
        (selActive segs = true → isinVal r.segment (segs.getD []) = true)) ∧
    load_issue_data tbl (some []) cts segs = load_issue_data tbl none cts segs ∧
    load_issue_data tbl users (some []) segs = load_issue_data tbl users none segs ∧
    load_issue_data tbl users cts (some []) = load_issue_data tbl users cts none := by
  have hmem : ∀ (get : Row → Option String) (sel : Option (List PyVal)) (rows : List Row),
      r ∈ applyFacet get sel rows ↔
        (r ∈ rows ∧ (selActive sel = true → isinVal (get r) (sel.getD []) = true)) := by
    intro get sel rows
    by_cases hs : selActive sel = true
    · simp [applyFacet, hs, List.mem_filter]
    · simp [applyFacet, hs]
  refine ⟨?_, rfl, rfl, rfl⟩
  simp only [filteredRows]
  rw [hmem, hmem, hmem]
  tauto

/-- C4 witness: filtering the spec example by the first user retains its
first row. -/
theorem c4_conjunctive_filtering_witness :
    mkRow (some "u1") none none (some "I1 Label") (some "F1")
        (some "Phase 1: Before Payment") (some "Fix")
      ∈ filteredRows specTbl (some [PyVal.str "u1"]) none none :=
  (c4_conjunctive_filtering specTbl (some [PyVal.str "u1"]) none none _).1.mpr
    (by decide)

/-- C8: `Issue_Clean` is everything after the first space of `Issue` when
`Issue` contains a space, the whole string otherwise, and null stays null;
`Action_Clean` is the literal `"No Action"` when `action_1` is null or
whitespace-only, and the stripped `action_1` otherwise. -/
theorem c8_cleaning_rules (iss act : Option String) :
    clean_issue_name iss = (match iss with
      | none => none
      | some s =>
        some (if ' ' ∈ s.toList
          then String.mk ((s.toList.dropWhile (fun c => !(c == ' '))).tail)
          else s)) ∧
    clean_action_name act = (match act with
      | none => "No Action"
      | some s => if s.toList.all Char.isWhitespace then "No Action" else pyStrip s) := by
  constructor
  · cases iss with
    | none => rfl
    | some s =>
      simp only [clean_issue_name]
      by_cases h : ' ' ∈ s.toList
      · rw [if_pos (List.elem_iff.mpr h), if_pos h, afterFirstSpace_eq]
      · rw [if_neg (fun hc => h (List.elem_iff.mp hc)), if_neg h]
  · cases act with
    | none => rfl
    | some s =>
      simp only [clean_action_name]
      by_cases h : pyStrip s = ""
      · rw [if_pos h, if_pos (List.all_eq_true.mpr ((pyStrip_eq_empty_iff s).mp h))]
      · rw [if_neg h, if_neg
          (fun hall => h ((pyStrip_eq_empty_iff s).mpr (List.all_eq_true.mp hall)))]

/-- C8 witness: concrete evaluations of both cleaning rules. -/
theorem c8_cleaning_rules_witness :
    clean_issue_name (some "I1 Label") = some "Label" ∧
    clean_action_name (some "   ") = "No Action" ∧
    clean_action_name none = "No Action" ∧
    clean_action_name (some " Fix it ") = "Fix it" :=
  ⟨(c8_cleaning_rules (some "I1 Label") none).1.trans (by decide),
   (c8_cleaning_rules none (some "   ")).2.trans (by decide),
   (c8_cleaning_rules none none).2.trans (by decide),
   (c8_cleaning_rules none (some " Fix it ")).2.trans (by decide)⟩

/-- C10: the facet value sets returned by `load_issue_data` never contain
the literal column-header strings: `"User"` is removed from `all_users`,
`"Type"` from `all_campaign_types`, `"User Segment"` from `all_segments`,
even when these occur as data values of the column. -/
theorem c10_headers_removed (tbl : List Row) (users cts segs : Option (List PyVal)) :
    "User" ∉ (load_issue_data tbl users cts segs).all_users ∧
    "Type" ∉ (load_issue_data tbl users cts segs).all_campaign_types ∧
    "User Segment" ∉ (load_issue_data tbl users cts segs).all_segments := by
  refine ⟨?_, ?_, ?_⟩
  · intro hmem
    simp only [load_issue_data, all_users] at hmem
    exact ((List.Nodup.mem_erase_iff
      (nodup_isort strLe _ (List.nodup_dedup _))).mp hmem).1 rfl
  · intro hmem
    simp only [load_issue_data, all_campaign_types] at hmem
    exact ((List.Nodup.mem_erase_iff
      (nodup_isort strLe _ (List.nodup_dedup _))).mp hmem).1 rfl
  · intro hmem
    simp only [load_issue_data, all_segments] at hmem
    exact ((List.Nodup.mem_erase_iff
      (nodup_isort strLe _ (List.nodup_dedup _))).mp hmem).1 rfl

/-- C6 (code-bug evaluation): for a row with null `action_1`, the detail
key is built from the null value itself — the f-string renders it as the
text `None`, giving `"None|||I1 Label"` — not from the `"No Action"`
sentinel: `Series.get` falls back to its default only for a missing
label, not for a null value.  The same row does group under the cleaned
action label `"No Action"` in the pivot, so the two structures disagree. -/
theorem c6_null_action_key_eval :
    detailKey (normalizeRow nullActionRow) = "None|||I1 Label" ∧
    detailKey (normalizeRow nullActionRow) ≠ "No Action|||I1 Label" ∧
    (normalizeRow nullActionRow).action_Clean = "No Action" ∧
    (load_issue_data [nullActionRow] none none none).all_actions = ["No Action"] ∧
    entriesAt (load_issue_data [nullActionRow] none none none).detail_map
      "No Action|||I1 Label" = [] ∧
    entriesAt (load_issue_data [nullActionRow] none none none).detail_map
      "None|||I1 Label" = [detailObj (normalizeRow nullActionRow)] :=
  ⟨by decide, by decide, by decide, by decide, by decide, by decide⟩

/-- C9 counterexample: a selection that is a sequence of integer
(non-text) values is not rejected with a descriptive error —
`filter_data` returns a normal `.ok` response, computed by ordinary
membership filtering, which here filters out every record. -/
theorem c9_counterexample_no_failfast :
    (filter_data specTbl
      { users := some [PyVal.int 7], campaign_types := none, segments := none }).isOk
        = true ∧
    filter_data specTbl
        { users := some [PyVal.int 7], campaign_types := none, segments := none }
      = Except.ok (load_issue_data specTbl (some [PyVal.int 7]) (some []) (some [])) ∧
    filteredRows specTbl (some [PyVal.int 7]) (some []) (some []) = [] :=
  ⟨rfl, rfl, by decide⟩

/-- C9 amended: the core performs no validation of filter selections and
never fails fast with a descriptive error; an ill-typed selection is
interpreted like any other value set.  Specifically, a non-empty users
selection of integer (non-text) values matches no `User` cell — text and
null cells alike fail the membership test against an integer — so the
call returns, without any error, the normally-shaped output of an empty
record set. -/
theorem c9_nontext_selection_interpreted (tbl : List Row) (sel : List PyVal)
    (hne : sel ≠ []) (hnt : ∀ x ∈ sel, PyVal.isStr x = false) :
    filter_data tbl { users := some sel, campaign_types := none, segments := none }
      = Except.ok (load_issue_data [] none none none) := by
  have hact : selActive (some sel) = true := by
    cases sel with
    | nil => exact absurd rfl hne
    | cons x l => rfl
  have hrows : filteredRows tbl (some sel) (some []) (some []) = [] := by
    have hid : ∀ (get : Row → Option String) (rows : List Row),
        applyFacet get (some []) rows = rows := fun _ _ => rfl
    simp only [filteredRows, hid]
    simp only [applyFacet, hact, if_true]
    apply List.filter_eq_nil_iff.mpr
    intro r _
    cases hu : r.user with
    | none => simp [isinVal]
    | some s =>
      simp only [isinVal, hu, Option.getD]
      intro hcontains
      have hmem : PyVal.str s ∈ sel := List.elem_iff.mp hcontains
      have := hnt _ hmem
      simp [PyVal.isStr] at this
  have hnorm : normRows tbl (some sel) (some []) (some []) = ([] : List NRow) := by
    simp [normRows, hrows]
  calc filter_data tbl { users := some sel, campaign_types := none, segments := none }
      = Except.ok (load_issue_data tbl (some sel) (some []) (some [])) := rfl
    _ = Except.ok (load_issue_data [] none none none) := by
        simp only [load_issue_data, hnorm]
        rfl

/-- C9 amended-claim witness at a concrete integer selection. -/
theorem c9_nontext_selection_interpreted_witness :
    filter_data specTbl
        { users := some [PyVal.int 7], campaign_types := none, segments := none }
      = Except.ok (load_issue_data [] none none none) :=
  c9_nontext_selection_interpreted specTbl [PyVal.int 7] (by decide) (by decide)

/-- C7: a filtered record whose `Phase` matches no canonical phase is
still inserted into the detail map under its action/issue key, yet it
contributes to no pivot bucket: erasing it from the record list leaves
every (action, canonical phase) entry list unchanged. -/
theorem c7_noncanonical_phase_rows (tbl : List Row) (users cts segs : Option (List PyVal))
    (r : NRow) (h1 : r ∈ normRows tbl users cts segs)
    (h2 : ∀ p ∈ phase_order, ¬ r.phase = some p) :
    detailObj r ∈ entriesAt (load_issue_data tbl users cts segs).detail_map (detailKey r) ∧
    ∀ a p, p ∈ phase_order →
      phaseBucket (normRows tbl users cts segs) a p
        = phaseBucket ((normRows tbl users cts segs).erase r) a p := by
  constructor
  · simp only [load_issue_data]
    rw [entriesAt_detail_map]
    exact List.mem_map.mpr ⟨r, List.mem_filter.mpr ⟨h1, by simp⟩, rfl⟩
  · intro a p hp
    have hfail : (r.phase == some p) = false := beq_eq_false_iff_ne.mpr (h2 p hp)
    have hkey : (((normRows tbl users cts segs).erase r).filter
          (fun x => x.action_Clean == a)).filter (fun x => x.phase == some p)
        = ((normRows tbl users cts segs).filter
          (fun x => x.action_Clean == a)).filter (fun x => x.phase == some p) := by
      rw [List.filter_filter, List.filter_filter]
      exact filter_erase_of_not _ h1 (by simp [hfail])
    simp only [phaseBucket]
    rw [hkey]

/-- C7 witness at a one-row table whose phase is `"Phase 9"`. -/
theorem c7_noncanonical_phase_rows_witness :
    detailObj (normalizeRow oddPhaseRow)
      ∈ entriesAt (load_issue_data [oddPhaseRow] none none none).detail_map
        (detailKey (normalizeRow oddPhaseRow)) :=
  (c7_noncanonical_phase_rows [oddPhaseRow] none none none (normalizeRow oddPhaseRow)
    (by decide) (by decide)).1

/-- C1: every pivot entry's `Finding_Count` equals the number of distinct
`Finding` values among the filtered rows with that entry's cleaned
action, phase, `Issue` and `Issue_Clean` — not the number of such rows. -/
theorem c1_finding_count_distinct (tbl : List Row) (users cts segs : Option (List PyVal))
    (a p : String) (phases : List (String × List PivotEntry))
    (bucket : List PivotEntry) (e : PivotEntry)
    (h1 : (a, phases) ∈ (load_issue_data tbl users cts segs).pivot_data)
    (h2 : (p, bucket) ∈ phases) (h3 : e ∈ bucket) :
    e.finding_Count =
      ((((normRows tbl users cts segs).filter (fun r : NRow =>
          r.action_Clean == a && (r.phase == some p) &&
          (r.issue == some e.issue) &&
          (r.issue_Clean == some e.issue_Clean))).filterMap (·.finding)).dedup).length := by
  simp only [load_issue_data, pivot_data, List.mem_map] at h1
  obtain ⟨a', _, heq⟩ := h1
  have ha : a' = a := congrArg Prod.fst heq
  subst ha
  have hph : phases = phase_order.map
      (fun q => (q, phaseBucket (normRows tbl users cts segs) a' q)) :=
    (congrArg Prod.snd heq).symm
  subst hph
  rcases List.mem_map.mp h2 with ⟨q, _, heq2⟩
  have hq : q = p := congrArg Prod.fst heq2
  subst hq
  have hbk : bucket = phaseBucket (normRows tbl users cts segs) a' q :=
    (congrArg Prod.snd heq2).symm
  subst hbk
  simp only [phaseBucket] at h3
  split at h3
  · exact absurd h3 (List.not_mem_nil e)
  · simp only [issueCounts, List.mem_reverse] at h3
    rw [mem_isort] at h3
    rcases List.mem_map.mp h3 with ⟨k, _, hek⟩
    subst hek
    dsimp only
    have hfilters :
        ((((normRows tbl users cts segs).filter (fun r => r.action_Clean == a')).filter
            (fun r => r.phase == some q)).filter (fun r => rowKey r == some k))
          = (normRows tbl users cts segs).filter (fun r =>
              r.action_Clean == a' && (r.phase == some q) &&
              (r.issue == some k.1) && (r.issue_Clean == some k.2)) := by
      rw [List.filter_filter, List.filter_filter]
      apply List.filter_congr
      intro x _
      have hk : (rowKey x == some k) = ((x.issue == some k.1) && (x.issue_Clean == some k.2)) := by
        apply Bool.coe_iff_coe.mp
        cases hxi : x.issue with
        | none => simp [rowKey, hxi]
        | some i =>
          cases hxc : x.issue_Clean with
          | none => simp [rowKey, hxi, hxc]
          | some c => simp [rowKey, hxi, hxc, Prod.ext_iff]
      rw [hk]
      cases x.action_Clean == a' <;> cases x.phase == some q <;>
        cases x.issue == some k.1 <;> cases x.issue_Clean == some k.2 <;> rfl
    rw [nuniqueFindings, hfilters]

/-- Every list is pairwise related by the trivial relation. -/
theorem pairwise_trivial {α : Type} (l : List α) : l.Pairwise (fun _ _ => True) := by
  induction l with
  | nil => exact List.Pairwise.nil
  | cons a l ih => exact List.pairwise_cons.mpr ⟨fun _ _ => trivial, ih⟩

/-- The counting pipeline sorts the grouped entries ascending by count
and reverses, so the entry list is sorted by `Finding_Count` descending —
an order property every correct argsort produces, stable or not. -/
theorem sorted_issueCounts (pr : List NRow) :
    (issueCounts pr).Pairwise (fun e₁ e₂ => e₂.finding_Count ≤ e₁.finding_Count) := by
  have hs := pairwise_isort countLe (fun _ _ => True) countLe_total
    (fun _ _ _ h₁ h₂ => countLe_trans h₁ h₂)
    ((groupKeys pr).map (fun k =>
      ({ issue := k.1, issue_Clean := k.2,
         finding_Count := nuniqueFindings (pr.filter (fun r => rowKey r == some k)) }
        : PivotEntry)))
    (pairwise_trivial _)
  simp only [issueCounts]
  refine List.pairwise_reverse.mpr (hs.imp ?_)
  rintro e₁ e₂ ⟨hle, _⟩
  exact of_decide_eq_true hle

/-- C5 amended: within each (Action, Phase) bucket, the entry list is
sorted by `Finding_Count` descending; entries with equal `Finding_Count`
do not keep the order in which their group first appeared in the input
rows (the counterexample below), and no particular tie order is part of
the program's contract — grouping reorders the groups lexicographically,
and the descending sort is a reversed ascending argsort whose default
quicksort is stable only below numpy's small-array cutoff. -/
theorem c5_count_sorted_descending (tbl : List Row) (users cts segs : Option (List PyVal))
    (a p : String) (phases : List (String × List PivotEntry)) (bucket : List PivotEntry)
    (h1 : (a, phases) ∈ (load_issue_data tbl users cts segs).pivot_data)
    (h2 : (p, bucket) ∈ phases) :
    bucket.Pairwise (fun e₁ e₂ => e₂.finding_Count ≤ e₁.finding_Count) := by
  simp only [load_issue_data, pivot_data, List.mem_map] at h1
  obtain ⟨a', _, heq⟩ := h1
  have ha : a' = a := congrArg Prod.fst heq
  subst ha
  have hph : phases = phase_order.map
      (fun q => (q, phaseBucket (normRows tbl users cts segs) a' q)) :=
    (congrArg Prod.snd heq).symm
  subst hph
  rcases List.mem_map.mp h2 with ⟨q, _, heq2⟩
  have hq : q = p := congrArg Prod.fst heq2
  subst hq
  have hbk : bucket = phaseBucket (normRows tbl users cts segs) a' q :=
    (congrArg Prod.snd heq2).symm
  subst hbk
  simp only [phaseBucket]
  split
  · exact List.Pairwise.nil
  · exact sorted_issueCounts _

/-- C5 counterexample: in `tieTbl` both groups tie at count 1 and the
group `"I1 A"` appears first in the input, yet the bucket lists the
later-appearing `"I2 B"` first, so ties do not keep first-appearance
order.  (Two tied groups sit well inside numpy's insertion-sort regime,
where the embedding is an exact trace of the program.) -/
theorem c5_counterexample_tie_order :
    (load_issue_data tieTbl none none none).pivot_data
      = [("Fix",
          [("Cross-cutting", ([] : List PivotEntry)),
           ("Phase 1: Before Payment",
            [{ issue := "I2 B", issue_Clean := "B", finding_Count := 1 },
             { issue := "I1 A", issue_Clean := "A", finding_Count := 1 }]),
           ("Phase 2: During Payment", []),
           ("Phase 3: After Payment", [])])] ∧
    phaseBucket (normRows tieTbl none none none) "Fix" "Phase 1: Before Payment"
      ≠ [{ issue := "I1 A", issue_Clean := "A", finding_Count := 1 },
         { issue := "I2 B", issue_Clean := "B", finding_Count := 1 }] :=
  ⟨by decide, by decide⟩

/-- C5 amended-claim witness at the spec example bucket. -/
theorem c5_count_sorted_descending_witness :
    specBucket.Pairwise (fun e₁ e₂ => e₂.finding_Count ≤ e₁.finding_Count) :=
  c5_count_sorted_descending specTbl none none none "Fix" "Phase 1: Before Payment"
    specPhases specBucket (by decide) (by decide)

/-- C1 witness at the spec example: the single entry of the Phase-1
bucket carries `Finding_Count` equal to the distinct-findings count of
its matching rows. -/
theorem c1_finding_count_distinct_witness :
    specEntry.finding_Count =
      (((specRows.filter (fun r : NRow =>
          r.action_Clean == "Fix" && (r.phase == some "Phase 1: Before Payment") &&
          (r.issue == some specEntry.issue) &&
          (r.issue_Clean == some specEntry.issue_Clean))).filterMap (·.finding)).dedup).length :=
  c1_finding_count_distinct specTbl none none none "Fix" "Phase 1: Before Payment"
    specPhases specBucket specEntry (by decide) (by decide) (by decide)

end App
